import Mathlib

/-!
The program proto_throughput: reporting arithmetic, byte counter and driver trace

Shallow embedding of `src/proto_throughput.cpp`.

* `size_t` values are naturals reduced modulo `2 ^ 64`, `int` values are
  integers in `[-2 ^ 31, 2 ^ 31)`.
* A finite `double` is the rational number it denotes; an arithmetic result is
  the correctly rounded binary64 value (round to nearest, ties to even) and
  `none` stands for a non-finite result (infinity or NaN).
* A conversion `int(d)` of a `double` whose truncation does not fit `int` is
  undefined in C++; it is `none` here.
* Calls into the middleware, the clock and `std::cout` are recorded as events
  of a trace, in program order.
-/

namespace ProtoThroughput

/-! ## binary64 arithmetic -/

/-- Nearest integer of a rational, a tie going to the even neighbour. -/
def roundNearestEven (q : ℚ) : ℤ :=
  if q - ⌊q⌋ < 1 / 2 then ⌊q⌋
  else if 1 / 2 < q - ⌊q⌋ then ⌊q⌋ + 1
  else if ⌊q⌋ % 2 = 0 then ⌊q⌋ else ⌊q⌋ + 1

/-- Exponent of the unit in the last place that binary64 uses around `x`:
53 significant bits, and the binade clamped at the smallest normal exponent
`-1022` so that subnormals share the spacing `2 ^ (-1074)`. -/
def ulpExp (x : ℚ) : ℤ := max (Int.log 2 |x|) (-1022) - 52

/-- Rounding of `x` to a multiple of its unit in the last place, before the
exponent range is checked. -/
def roundSignificand (x : ℚ) : ℚ :=
  (roundNearestEven (x / 2 ^ ulpExp x) : ℚ) * 2 ^ ulpExp x

/-- Correctly rounded binary64 value of the exact result `x`; a magnitude that
rounds to `2 ^ 1024` or more overflows to infinity. -/
def roundDouble (x : ℚ) : Option ℚ :=
  if |roundSignificand x| < 2 ^ 1024 then some (roundSignificand x) else none

/-- Multiplication of two finite doubles, `a * b`. -/
def fmul (a b : ℚ) : Option ℚ := roundDouble (a * b)

/-- Division of two finite doubles, `a / b`; a zero divisor gives infinity or
NaN. -/
def fdiv (a b : ℚ) : Option ℚ := if b = 0 then none else roundDouble (a / b)

/-- Truncation toward zero. -/
def truncate (x : ℚ) : ℤ := if 0 ≤ x then ⌊x⌋ else ⌈x⌉

/-- Conversion `int(d)`: the truncated value when it fits a 32-bit `int`. -/
def toInt (d : ℚ) : Option ℤ :=
  if -(2 ^ 31) ≤ truncate d ∧ truncate d < 2 ^ 31 then some (truncate d) else none

/-- Conversion `double(n)` of an unsigned 64-bit value. -/
def ofSizeT (n : ℕ) : Option ℚ := roundDouble n

/-! ## Machine integers -/

/-- Conversion of an `int` to `size_t`: reduction modulo `2 ^ 64`. -/
def toSizeT (z : ℤ) : ℕ := (z % 2 ^ 64).toNat

/-- Conversion `int(n)` of a `size_t`: the low 32 bits read as two's
complement. -/
def toInt32 (n : ℕ) : ℤ :=
  if n % 2 ^ 32 < 2 ^ 31 then ((n % 2 ^ 32 : ℕ) : ℤ) else ((n % 2 ^ 32 : ℕ) : ℤ) - 2 ^ 32

/-- Conversion `double(i)` of an `int`, which is exact. -/
def ofInt (i : ℤ) : ℚ := i

/-- The constant `g_snd_loops`. -/
def g_snd_loops : ℤ := 2560

/-! ## The message and the received-byte counter -/

/-- One `char` of a buffer. -/
abbrev Byte := Fin 256

/-- The fields of `foxglove::CompressedImage` that the program sets. -/
structure CompressedImage where
  format : String
  data : List Byte
deriving DecidableEq

/-- The call `msg.ByteSizeLong()`: the length of the serialization of `msg`. The
serializer `ser` stands for the generated code of `compressed_image.pb.h`,
which is not part of the sources. -/
def ByteSizeLong (ser : CompressedImage → List Byte) (msg : CompressedImage) : ℕ :=
  (ser msg).length

/-- The call `msg.SerializePartialToArray(data, size)` on a buffer with contents `buf`:
the protobuf runtime writes the `ByteSizeLong()` bytes of the serialization at
the start of the buffer, unless the message is larger than `INT_MAX` or than
`size`, in which case the buffer is left untouched. -/
def SerializePartialToArray (ser : CompressedImage → List Byte) (msg : CompressedImage)
    (buf : List Byte) (size : ℤ) : List Byte :=
  if ByteSizeLong ser msg ≤ 2 ^ 31 - 1 ∧ (ByteSizeLong ser msg : ℤ) ≤ size then
    ser msg ++ buf.drop (ByteSizeLong ser msg)
  else buf

/-- The callback `OnMessage`: `g_callback_received += msg_.ByteSizeLong()` on a `size_t`
counter. The first argument is the counter before the call, the result is the
counter after it. -/
def OnMessage (ser : CompressedImage → List Byte) (g_callback_received : ℕ)
    (msg_ : CompressedImage) : ℕ :=
  (g_callback_received + ByteSizeLong ser msg_) % 2 ^ 64

/-- The counter after the callback ran for each message of `msgs`, in order,
starting from the value `c`. -/
def received (ser : CompressedImage → List Byte) (c : ℕ) (msgs : List CompressedImage) : ℕ :=
  msgs.foldl (OnMessage ser) c

/-- The message that `throughput_test` builds: format `"jpg"` and
`4 * 1024 * 1024` zero bytes of data. -/
def generatedMessage : CompressedImage :=
  { format := "jpg", data := List.replicate (4 * 1024 * 1024) 0 }

/-- Base-128 encoding of a length or tag, low group first, as protobuf writes
it. -/
def varint (n : ℕ) : List Byte :=
  if n < 128 then [Fin.ofNat n] else Fin.ofNat (n % 128 + 128) :: varint (n / 128)
termination_by n
decreasing_by omega

/-- A length-delimited protobuf field; proto3 leaves an empty one out. -/
def lengthDelimited (field : ℕ) (payload : List Byte) : List Byte :=
  if payload.isEmpty then [] else varint (8 * field + 2) ++ varint payload.length ++ payload

/-- A concrete serializer for the examples: the protobuf wire format of a
message whose `data` is field 2 and whose `format` is field 3. -/
def wireEncode (msg : CompressedImage) : List Byte :=
  lengthDelimited 2 msg.data ++
    lengthDelimited 3 (msg.format.toList.map fun ch => Fin.ofNat ch.toNat)

/-! ## The report -/

/-- The local `sum_snd_bytes = pb_message.ByteSizeLong() * snd_loops`, a `size_t`
product; `snd_loops` is converted to `size_t` first. -/
def sum_snd_bytes (byteSize : ℕ) (snd_loops : ℤ) : ℕ :=
  (byteSize * toSizeT snd_loops) % 2 ^ 64

/-- The `Sent` figure: `sum_snd_bytes / (1024 * 1024 * 1024)`. -/
def sentGB (sum_snd : ℕ) : ℕ := sum_snd / (1024 * 1024 * 1024)

/-- The `Lost` figure: `sum_snd_bytes - sum_rcv_bytes` in `size_t`. -/
def lost (sum_snd sum_rcv : ℕ) : ℕ := (((sum_snd : ℤ) - sum_rcv) % 2 ^ 64).toNat

/-- The `Latency` figure: `elapsed.count() * 1000.0 / double(g_snd_loops)`. -/
def latency (elapsed : ℚ) : Option ℚ :=
  (fmul elapsed 1000).bind fun ms => fdiv ms (ofInt g_snd_loops)

/-- The `Frequency` figure: `int(double(g_snd_loops) / elapsed.count())`. -/
def frequency (elapsed : ℚ) : Option ℤ :=
  (fdiv (ofInt g_snd_loops) elapsed).bind toInt

/-- The `Throughput` figure:
`int((double(sum_snd_bytes) / (1024.0 * 1024.0)) / elapsed.count())`. -/
def throughput (sum_snd : ℕ) (elapsed : ℚ) : Option ℤ :=
  (ofSizeT sum_snd).bind fun bytes =>
    (fdiv bytes (1024 * 1024)).bind fun mib => (fdiv mib elapsed).bind toInt

/-- A value streamed to `std::cout` by `throughput_test`. -/
inductive Line
  | messageSize (kB : ℕ)
  | elapsedTime (s : ℚ)
  | sent (gb : ℕ)
  | lost (bytes : ℕ)
  | latency (ms : Option ℚ)
  | frequency (hz : Option ℤ)
  | throughput (mbs : Option ℤ)
deriving DecidableEq

/-! ## The driver -/

/-- The two publisher objects of `throughput_test`. -/
inductive Pub
  | pub_proto
  | pub_raw
deriving DecidableEq

/-- What the driver thread does to the outside world, one event per call. -/
inductive Event
  | create (p : Pub) (topic : String)
  | shmEnableZeroCopy (p : Pub) (enabled : Bool)
  | shmSetAcknowledgeTimeout (p : Pub) (ms : ℕ)
  | subscriber (topic : String)
  | addReceiveCallback
  | sleepMS (ms : ℕ)
  | sendProto (msg : CompressedImage)
  | sendRaw (buf : List Byte) (len : ℕ)
  | counterStore (value : ℕ)
  | counterLoad
  | clockNow
  | print (line : Line)
deriving DecidableEq

/-- The locals of `throughput_test` that change, and the events so far. -/
structure Driver where
  pb_message : CompressedImage
  msg_buffer : List Byte
  trace : List Event

/-- Append one event. -/
def emit (e : Event) (d : Driver) : Driver := { d with trace := d.trace ++ [e] }

/-- Lines 39-53: create and configure the publisher that the mode uses. -/
def createPublisher (zero_copy use_payload : Bool) (d : Driver) : Driver :=
  if use_payload then
    emit (.shmSetAcknowledgeTimeout .pub_proto 100)
      (emit (.shmEnableZeroCopy .pub_proto zero_copy) (emit (.create .pub_proto "image") d))
  else
    emit (.shmSetAcknowledgeTimeout .pub_raw 100)
      (emit (.shmEnableZeroCopy .pub_raw zero_copy) (emit (.create .pub_raw "image") d))

/-- Lines 55-61: subscriber, callback, and the pause that lets them match. -/
def createSubscriber (d : Driver) : Driver :=
  emit (.sleepMS 2000) (emit .addReceiveCallback (emit (.subscriber "image") d))

/-- Lines 63-71: the 4 MB message, the size line, and the zeroed buffer of
`ByteSizeLong()` bytes. -/
def generateMessage (ser : CompressedImage → List Byte) (d : Driver) : Driver :=
  let pb_message : CompressedImage := generatedMessage
  emit (.print (.messageSize (ByteSizeLong ser pb_message / 1024)))
    { d with
      pb_message := pb_message
      msg_buffer := List.replicate (ByteSizeLong ser pb_message) 0 }

/-- Lines 74-84 and the loop body, lines 95-104: one send, of the structured
message or of the buffer it was just serialized into. -/
def sendMessage (ser : CompressedImage → List Byte) (use_payload : Bool) (d : Driver) : Driver :=
  if use_payload then emit (.sendProto d.pb_message) d
  else
    let buf := SerializePartialToArray ser d.pb_message d.msg_buffer (toInt32 d.msg_buffer.length)
    emit (.sendRaw buf buf.length) { d with msg_buffer := buf }

/-- The loop `for (auto i = 0; i < snd_loops; ++i)`; `remaining` is the
number of iterations left, `snd_loops - i` when that is positive and `0`
otherwise. -/
def forLoop (body : Driver → Driver) : (remaining : ℕ) → Driver → Driver
  | 0, d => d
  | n + 1, d => forLoop body n (body d)

/-- Lines 107-118: finish time, the two sums, and the six report lines.
`elapsed` is `elapsed.count()` and `sum_rcv_bytes` the value that the load of
`g_callback_received` returns. -/
def report (ser : CompressedImage → List Byte) (snd_loops : ℤ) (elapsed : ℚ)
    (sum_rcv_bytes : ℕ) (d : Driver) : Driver :=
  let sum_snd := sum_snd_bytes (ByteSizeLong ser d.pb_message) snd_loops
  emit (.print (.throughput (throughput sum_snd elapsed)))
    (emit (.print (.frequency (frequency elapsed)))
      (emit (.print (.latency (latency elapsed)))
        (emit (.print (.lost (lost sum_snd sum_rcv_bytes)))
          (emit (.print (.sent (sentGB sum_snd)))
            (emit (.print (.elapsedTime elapsed))
              (emit .counterLoad (emit .clockNow d)))))))

/-- The function `throughput_test(snd_loops, zero_copy, use_payload)`. The two
further arguments are what the environment returns to the driver: the elapsed
seconds between the two clock readings and the counter value it loads. -/
def throughput_test (ser : CompressedImage → List Byte) (snd_loops : ℤ)
    (zero_copy use_payload : Bool) (elapsed : ℚ) (sum_rcv_bytes : ℕ) : Driver :=
  let d0 : Driver := { pb_message := { format := "", data := [] }, msg_buffer := [], trace := [] }
  let d1 := createSubscriber (createPublisher zero_copy use_payload d0)
  let d2 := sendMessage ser use_payload (generateMessage ser d1)
  let d3 := emit .clockNow (emit (.counterStore 0) d2)
  let d4 := forLoop (sendMessage ser use_payload) snd_loops.toNat d3
  report ser snd_loops elapsed sum_rcv_bytes d4

/-- A `Send` call on either publisher. -/
def Event.isSend : Event → Bool
  | .sendProto _ => true
  | .sendRaw _ _ => true
  | _ => false

/-- A write of `g_callback_received` by the driver. -/
def Event.isCounterWrite : Event → Bool
  | .counterStore _ => true
  | _ => false

/-- A read of `g_callback_received` by the driver. -/
def Event.isCounterRead : Event → Bool
  | .counterLoad => true
  | _ => false

/-- The buffer after `SerializePartialToArray` ran on the freshly allocated,
zeroed `msg_buffer` of `ByteSizeLong()` bytes. -/
def serializedBuffer (ser : CompressedImage → List Byte) : List Byte :=
  SerializePartialToArray ser generatedMessage
    (List.replicate (ByteSizeLong ser generatedMessage) 0)
    (toInt32 (ByteSizeLong ser generatedMessage))

/-- The `Send` call of a trial in the given mode. -/
def sendEvent (ser : CompressedImage → List Byte) (use_payload : Bool) : Event :=
  if use_payload then .sendProto generatedMessage
  else .sendRaw (serializedBuffer ser) (ByteSizeLong ser generatedMessage)

/-- The events of a trial before its first `Send`: publisher, subscriber,
pause and the message size line. -/
def setupEvents (ser : CompressedImage → List Byte) (zero_copy use_payload : Bool) :
    List Event :=
  [ .create (if use_payload then .pub_proto else .pub_raw) "image",
    .shmEnableZeroCopy (if use_payload then .pub_proto else .pub_raw) zero_copy,
    .shmSetAcknowledgeTimeout (if use_payload then .pub_proto else .pub_raw) 100,
    .subscriber "image",
    .addReceiveCallback,
    .sleepMS 2000,
    .print (.messageSize (ByteSizeLong ser generatedMessage / 1024)) ]

/-- The six report lines of a trial. -/
def reportLines (ser : CompressedImage → List Byte) (snd_loops : ℤ) (elapsed : ℚ)
    (sum_rcv_bytes : ℕ) : List Event :=
  [ .print (.elapsedTime elapsed),
    .print (.sent (sentGB (sum_snd_bytes (ByteSizeLong ser generatedMessage) snd_loops))),
    .print (.lost (lost (sum_snd_bytes (ByteSizeLong ser generatedMessage) snd_loops)
      sum_rcv_bytes)),
    .print (.latency (latency elapsed)),
    .print (.frequency (frequency elapsed)),
    .print (.throughput
      (throughput (sum_snd_bytes (ByteSizeLong ser generatedMessage) snd_loops) elapsed)) ]

/-- The state in which every `Send` of a trial happens: the message is the
generated one and the buffer has its size. -/
structure Ready (ser : CompressedImage → List Byte) (d : Driver) : Prop where
  message : d.pb_message = generatedMessage
  buffer : d.msg_buffer = List.replicate (ByteSizeLong ser generatedMessage) 0 ∨
    d.msg_buffer = serializedBuffer ser

/-! ## The function `main` -/

/-- A statement of `main`. -/
inductive Stmt
  | Initialize (unit_name : String)
  | EnableLoopback (enabled : Bool)
  | coutLine (text : String)
  | coutEndl
  | throughput_test (snd_loops : ℤ) (zero_copy use_payload : Bool)
  | Finalize
deriving DecidableEq

/-- The body of `main`, lines 124-159, statement by statement. -/
def main : List Stmt :=
  [ .Initialize "pubsub_throughput",
    .EnableLoopback true,
    .coutLine "-----------------------------",
    .coutLine "MODE         : BUFFER        ",
    .coutLine "LAYER        : SHM           ",
    .coutLine "-----------------------------",
    .throughput_test g_snd_loops false false,
    .coutEndl,
    .coutLine "-----------------------------",
    .coutLine "MODE         : BUFFER        ",
    .coutLine "LAYER        : SHM ZERO-COPY ",
    .coutLine "-----------------------------",
    .throughput_test g_snd_loops true false,
    .coutEndl,
    .coutLine "-----------------------------",
    .coutLine "MODE         : PAYLOAD       ",
    .coutLine "LAYER        : SHM           ",
    .coutLine "-----------------------------",
    .throughput_test g_snd_loops false true,
    .coutEndl,
    .coutLine "-----------------------------",
    .coutLine "MODE         : PAYLOAD       ",
    .coutLine "LAYER        : SHM ZERO-COPY ",
    .coutLine "-----------------------------",
    .throughput_test g_snd_loops true true,
    .coutEndl,
    .Finalize ]

/-- One trial of `main`: the lines printed since the previous trial, and the
arguments of the call. -/
structure Trial where
  banner : List String
  snd_loops : ℤ
  zero_copy : Bool
  use_payload : Bool
deriving DecidableEq

/-- The trials of a statement list; `printed` collects the lines streamed
since the last call. -/
def trialsFrom : List Stmt → List String → List Trial
  | [], _ => []
  | .coutLine text :: rest, printed => trialsFrom rest (printed ++ [text])
  | .throughput_test n z u :: rest, printed =>
      { banner := printed, snd_loops := n, zero_copy := z, use_payload := u } ::
        trialsFrom rest []
  | _ :: rest, printed => trialsFrom rest printed

/-- The trials that `main` runs. -/
def trials : List Trial := trialsFrom main []

/-- The banner that announces a trial with the given arguments: `BUFFER`
unless the payload is sent, `ZERO-COPY` when zero-copy is on. -/
def bannerOf (zero_copy use_payload : Bool) : List String :=
  [ "-----------------------------",
    if use_payload then "MODE         : PAYLOAD       " else "MODE         : BUFFER        ",
    if zero_copy then "LAYER        : SHM ZERO-COPY " else "LAYER        : SHM           ",
    "-----------------------------" ]

/-! ## Reading the report off a trace -/

/-- The value of a `Throughput` line, for an event that prints one. -/
def Event.throughputLine : Event → Option (Option ℤ)
  | .print (.throughput mbs) => some mbs
  | _ => none

/-- The figure that the specification gives for the throughput, before
truncation: the total bytes sent `s * N` divided by the elapsed seconds `t`,
expressed in MiB per second. -/
def exactRate (s : ℕ) (N : ℤ) (t : ℚ) : ℚ := (s : ℚ) * N / t / (1024 * 1024)

/-! ### Facts about rounding -/

theorem roundNearestEven_le {q : ℚ} {z : ℤ} (h : q ≤ z) : roundNearestEven q ≤ z := by
  have hf : ⌊q⌋ ≤ z := Int.floor_le_iff.mpr (by linarith)
  rcases eq_or_lt_of_le hf with heq | hlt
  · have hq : q = z := le_antisymm h (by rw [← heq]; exact Int.floor_le q)
    subst hq
    simp [roundNearestEven]
  · unfold roundNearestEven
    split_ifs <;> omega

theorem le_roundNearestEven {q : ℚ} {z : ℤ} (h : (z : ℚ) ≤ q) : z ≤ roundNearestEven q := by
  have hf : z ≤ ⌊q⌋ := Int.le_floor.mpr h
  unfold roundNearestEven
  split_ifs <;> omega

theorem two_zpow_pos (e : ℤ) : (0 : ℚ) < 2 ^ e := zpow_pos (by norm_num) e

/-- A dyadic value `m / 2 ^ d` is an integer multiple of `2 ^ e` when
`e ≤ -d`. -/
theorem dyadic_eq_mul_zpow (m d : ℕ) {e : ℤ} (he : e ≤ -(d : ℤ)) :
    (m : ℚ) / 2 ^ d = (((m * 2 ^ (-(d : ℤ) - e).toNat : ℕ) : ℤ) : ℚ) * 2 ^ e := by
  have hn : ((-(d : ℤ) - e).toNat : ℤ) = -(d : ℤ) - e := Int.toNat_of_nonneg (by omega)
  have h2 : (2 : ℚ) ^ (-(d : ℤ) - e).toNat * 2 ^ e = (2 ^ d)⁻¹ := by
    rw [← zpow_natCast, hn, ← zpow_add₀ (by norm_num : (2 : ℚ) ≠ 0)]
    rw [show -(d : ℤ) - e + e = -(d : ℤ) by ring, zpow_neg, zpow_natCast]
  push_cast
  rw [mul_assoc, h2, div_eq_mul_inv]

/-- Rounding never goes below a multiple of the unit that the argument
reaches. -/
theorem mul_zpow_le_roundSignificand {y : ℚ} {z : ℤ}
    (h : (z : ℚ) * 2 ^ ulpExp y ≤ y) : (z : ℚ) * 2 ^ ulpExp y ≤ roundSignificand y := by
  have hp := two_zpow_pos (ulpExp y)
  have hz : (z : ℚ) ≤ y / 2 ^ ulpExp y := (le_div_iff₀ hp).mpr h
  have := le_roundNearestEven hz
  unfold roundSignificand
  exact mul_le_mul_of_nonneg_right (by exact_mod_cast this) hp.le

/-- Rounding never goes above a multiple of the unit that bounds the
argument. -/
theorem roundSignificand_le_mul_zpow {y : ℚ} {z : ℤ}
    (h : y ≤ (z : ℚ) * 2 ^ ulpExp y) : roundSignificand y ≤ (z : ℚ) * 2 ^ ulpExp y := by
  have hp := two_zpow_pos (ulpExp y)
  have hz : y / 2 ^ ulpExp y ≤ (z : ℚ) := (div_le_iff₀ hp).mpr h
  have := roundNearestEven_le hz
  unfold roundSignificand
  exact mul_le_mul_of_nonneg_right (by exact_mod_cast this) hp.le

/-- When the unit of `y` is coarser than `2 ^ (-d)` the argument has left the
subnormal range, so its binade starts at `2 ^ 52` units, which no dyadic
`m / 2 ^ d` with `m ≤ 2 ^ 53` exceeds. -/
theorem dyadic_le_binade {m d : ℕ} (hm : m ≤ 2 ^ 53) (hd : d ≤ 1074) {y : ℚ} (hy : 0 < y)
    (he : -(d : ℤ) < ulpExp y) :
    (m : ℚ) / 2 ^ d ≤ ((2 ^ 52 : ℤ) : ℚ) * 2 ^ ulpExp y ∧
      ((2 ^ 52 : ℤ) : ℚ) * 2 ^ ulpExp y ≤ y := by
  have hL : ulpExp y = Int.log 2 |y| - 52 := by
    unfold ulpExp at he ⊢
    rcases le_total (Int.log 2 |y|) (-1022) with h | h
    · rw [max_eq_right h] at he; omega
    · rw [max_eq_left h]
  have habs : |y| = y := abs_of_pos hy
  have hlow : (2 : ℚ) ^ Int.log 2 y ≤ y := by
    have := Int.zpow_log_le_self (b := 2) (r := y) (by norm_num) hy
    exact_mod_cast this
  have hsplit : ((2 ^ 52 : ℤ) : ℚ) * 2 ^ ulpExp y = 2 ^ Int.log 2 y := by
    have h52 : ((2 ^ 52 : ℤ) : ℚ) = (2 : ℚ) ^ (52 : ℤ) := by norm_num
    rw [hL, habs, h52, ← zpow_add₀ (by norm_num : (2 : ℚ) ≠ 0)]
    congr 1
    ring
  refine ⟨?_, by rw [hsplit]; exact hlow⟩
  rw [hsplit]
  have hexp : (53 : ℤ) - d ≤ Int.log 2 y := by rw [hL, habs] at he; omega
  have h1 : (m : ℚ) / 2 ^ d ≤ 2 ^ ((53 : ℤ) - d) := by
    rw [zpow_sub₀ (by norm_num : (2 : ℚ) ≠ 0), zpow_natCast]
    apply div_le_div_of_nonneg_right _ (by positivity)
    exact_mod_cast hm
  exact h1.trans (zpow_le_zpow_right₀ (by norm_num) hexp)

/-- Rounding is bounded below by every binary64 value the argument reaches:
`m / 2 ^ d ≤ y` gives `m / 2 ^ d ≤ round y`. -/
theorem dyadic_le_roundSignificand {m d : ℕ} (hm : m ≤ 2 ^ 53) (hd : d ≤ 1074) {y : ℚ}
    (h : (m : ℚ) / 2 ^ d ≤ y) : (m : ℚ) / 2 ^ d ≤ roundSignificand y := by
  have hv : (0 : ℚ) ≤ (m : ℚ) / 2 ^ d := by positivity
  rcases eq_or_lt_of_le (hv.trans h) with h0 | hy
  · have hm0 : (m : ℚ) / 2 ^ d = 0 := le_antisymm (by rw [h0]; exact h) hv
    rw [hm0, ← h0]
    simp [roundSignificand, roundNearestEven]
  · rcases le_or_lt (ulpExp y) (-(d : ℤ)) with he | he
    · rw [dyadic_eq_mul_zpow m d he] at h ⊢
      exact mul_zpow_le_roundSignificand h
    · obtain ⟨h1, h2⟩ := dyadic_le_binade hm hd hy he
      exact h1.trans (mul_zpow_le_roundSignificand h2)

/-- Rounding is bounded above by every binary64 value that bounds the
argument: `0 ≤ y ≤ m / 2 ^ d` gives `round y ≤ m / 2 ^ d`. -/
theorem roundSignificand_le_dyadic {m d : ℕ} (hm : m ≤ 2 ^ 53) (hd : d ≤ 1074) {y : ℚ}
    (hy0 : 0 ≤ y) (h : y ≤ (m : ℚ) / 2 ^ d) : roundSignificand y ≤ (m : ℚ) / 2 ^ d := by
  rcases eq_or_lt_of_le hy0 with h0 | hy
  · rw [← h0]
    have : roundSignificand 0 = 0 := by simp [roundSignificand, roundNearestEven]
    rw [this]; positivity
  · rcases le_or_lt (ulpExp y) (-(d : ℤ)) with he | he
    · rw [dyadic_eq_mul_zpow m d he] at h ⊢
      exact roundSignificand_le_mul_zpow h
    · obtain ⟨h1, h2⟩ := dyadic_le_binade hm hd hy he
      have hyv : y = ((2 ^ 52 : ℤ) : ℚ) * 2 ^ ulpExp y := le_antisymm (h.trans h1) h2
      have := roundSignificand_le_mul_zpow (le_of_eq hyv)
      exact this.trans (hyv ▸ h)

/-- A dyadic `m / 2 ^ d` with `m ≤ 2 ^ 53` and `d ≤ 1074` is a binary64 value:
rounding returns it unchanged. -/
theorem roundDouble_dyadic {m d : ℕ} (hm : m ≤ 2 ^ 53) (hd : d ≤ 1074) :
    roundDouble ((m : ℚ) / 2 ^ d) = some ((m : ℚ) / 2 ^ d) := by
  have hv : (0 : ℚ) ≤ (m : ℚ) / 2 ^ d := by positivity
  have heq : roundSignificand ((m : ℚ) / 2 ^ d) = (m : ℚ) / 2 ^ d :=
    le_antisymm (roundSignificand_le_dyadic hm hd hv le_rfl)
      (dyadic_le_roundSignificand hm hd le_rfl)
  have hlt : (m : ℚ) / 2 ^ d < 2 ^ 1024 := by
    have h1 : (m : ℚ) / 2 ^ d ≤ m := div_le_self (by positivity) (one_le_pow₀ (by norm_num))
    have h2 : (m : ℚ) ≤ 2 ^ 53 := by exact_mod_cast hm
    have h3 : (2 : ℚ) ^ 53 < 2 ^ 1024 := by norm_num
    linarith
  unfold roundDouble
  rw [heq, abs_of_nonneg hv, if_pos hlt]

/-! ## The counter -/

theorem received_lt (ser : CompressedImage → List Byte) (msgs : List CompressedImage) :
    ∀ c, c < 2 ^ 64 → received ser c msgs < 2 ^ 64 := by
  induction msgs with
  | nil => intro c hc; simpa [received] using hc
  | cons m ms ih =>
    intro c _
    have : received ser c (m :: ms) = received ser (OnMessage ser c m) ms := rfl
    rw [this]
    exact ih _ (Nat.mod_lt _ (by norm_num))

theorem received_mod (ser : CompressedImage → List Byte) (msgs : List CompressedImage) :
    ∀ c, received ser c msgs % 2 ^ 64 = (c + (msgs.map (ByteSizeLong ser)).sum) % 2 ^ 64 := by
  induction msgs with
  | nil => intro c; simp [received]
  | cons m ms ih =>
    intro c
    have : received ser c (m :: ms) = received ser (OnMessage ser c m) ms := rfl
    rw [this, ih, List.map_cons, List.sum_cons, OnMessage, ← Nat.add_assoc]
    exact Nat.mod_add_mod _ _ _

/-- C2: after a reset to 0, the counter holds the sum of the serialized sizes
of the received messages modulo `2 ^ 64`, and one call of `OnMessage` adds the
size of its message, modulo `2 ^ 64`, to the counter. -/
theorem C2_counter_is_sum_of_sizes (ser : CompressedImage → List Byte)
    (msgs : List CompressedImage) :
    received ser 0 msgs = (msgs.map (ByteSizeLong ser)).sum % 2 ^ 64 ∧
      ∀ (c : ℕ) (msg_ : CompressedImage),
        received ser c [msg_] = (c + ByteSizeLong ser msg_) % 2 ^ 64 := by
  refine ⟨?_, fun c m => rfl⟩
  have h := received_mod ser msgs 0
  rw [Nat.mod_eq_of_lt (received_lt ser msgs 0 (by norm_num)), Nat.zero_add] at h
  exact h

theorem byteSizeLong_wireEncode_replicate (n : ℕ) (hn : 0 < n) :
    ByteSizeLong wireEncode { format := "jpg", data := List.replicate n 0 } =
      (varint n).length + n + 6 := by
  have h2 : (varint 18).length = 1 := by rw [varint]; simp
  have h3 : (varint 26).length = 1 := by rw [varint]; simp
  have hj : (varint 3).length = 1 := by rw [varint]; simp
  have hfmt : "jpg".toList = ['j', 'p', 'g'] := rfl
  have hne : (List.replicate n (0 : Byte)).isEmpty = false := by
    cases n with
    | zero => omega
    | succ k => rfl
  simp only [ByteSizeLong, wireEncode, lengthDelimited, hne, hfmt, h2, h3, hj,
    List.length_append, List.length_replicate, List.length_map, List.length_cons,
    List.length_nil, List.map_cons, List.map_nil, List.isEmpty_cons, Bool.false_eq_true,
    if_false]
  omega

theorem byteSizeLong_wireEncode_generatedMessage :
    ByteSizeLong wireEncode generatedMessage = 4194314 := by
  have hl : (varint 4194304).length = 4 := by
    rw [varint, if_neg (by norm_num)]
    rw [varint, if_neg (by norm_num)]
    rw [varint, if_neg (by norm_num)]
    rw [varint, if_pos (by norm_num)]
    rfl
  have h := byteSizeLong_wireEncode_replicate 4194304 (by norm_num)
  rw [hl] at h
  exact h

theorem received_eq_add (ser : CompressedImage → List Byte) (msgs : List CompressedImage) :
    ∀ c, c + (msgs.map (ByteSizeLong ser)).sum < 2 ^ 64 →
      received ser c msgs = c + (msgs.map (ByteSizeLong ser)).sum := by
  induction msgs with
  | nil => intro c _; simp [received]
  | cons m ms ih =>
    intro c h
    have hstep : received ser c (m :: ms) = received ser (OnMessage ser c m) ms := rfl
    rw [List.map_cons, List.sum_cons] at h ⊢
    have hm : OnMessage ser c m = c + ByteSizeLong ser m := by
      unfold OnMessage
      exact Nat.mod_eq_of_lt (by omega)
    rw [hstep, hm, ih _ (by omega)]
    omega

theorem sum_take_le_sum_take (f : CompressedImage → ℕ) (msgs : List CompressedImage)
    {i j : ℕ} (hij : i ≤ j) :
    ((msgs.take i).map f).sum ≤ ((msgs.take j).map f).sum := by
  have h : msgs.take j = msgs.take i ++ (msgs.take j).drop i := by
    have := (List.take_append_drop i (msgs.take j)).symm
    rwa [List.take_take, min_eq_left hij] at this
  rw [h, List.map_append, List.sum_append]
  exact Nat.le_add_right _ _

/-- C3 (counterexample): from the counter value `2 ^ 64 - 1` the callback for
the 4 MB message wraps the counter around to `4194313`, a smaller value. -/
theorem C3_counter_wraps :
    OnMessage wireEncode (2 ^ 64 - 1) generatedMessage = 4194313 ∧
      ¬ (2 ^ 64 - 1 ≤ OnMessage wireEncode (2 ^ 64 - 1) generatedMessage) := by
  have h : OnMessage wireEncode (2 ^ 64 - 1) generatedMessage = 4194313 := by
    rw [OnMessage, byteSizeLong_wireEncode_generatedMessage]
    norm_num
  rw [h]
  exact ⟨rfl, by norm_num⟩

/-- C3 (amended): as long as the bytes received since the counter held `c` keep
it below `2 ^ 64`, the counter never decreases: its value after the first `i`
callbacks is at most its value after the first `j ≥ i` callbacks. -/
theorem C3_counter_nondecreasing (ser : CompressedImage → List Byte) (c : ℕ)
    (msgs : List CompressedImage)
    (hfit : c + (msgs.map (ByteSizeLong ser)).sum < 2 ^ 64) (i j : ℕ) (hij : i ≤ j) :
    received ser c (msgs.take i) ≤ received ser c (msgs.take j) := by
  have hle : ∀ k, ((msgs.take k).map (ByteSizeLong ser)).sum ≤
      (msgs.map (ByteSizeLong ser)).sum := by
    intro k
    have := sum_take_le_sum_take (ByteSizeLong ser) msgs (Nat.le_max_left k msgs.length)
    rwa [List.take_of_length_le (Nat.le_max_right k msgs.length)] at this
  rw [received_eq_add ser _ c (by have := hle i; omega),
    received_eq_add ser _ c (by have := hle j; omega)]
  exact Nat.add_le_add_left (sum_take_le_sum_take _ msgs hij) c

theorem C3_counter_nondecreasing_witness :
    received wireEncode 0 ([generatedMessage, generatedMessage].take 1) ≤
      received wireEncode 0 ([generatedMessage, generatedMessage].take 2) :=
  C3_counter_nondecreasing wireEncode 0 [generatedMessage, generatedMessage]
    (by
      rw [List.map_cons, List.map_cons, List.map_nil, List.sum_cons, List.sum_cons,
        List.sum_nil, byteSizeLong_wireEncode_generatedMessage]
      norm_num) 1 2 (by decide)

theorem sum_snd_bytes_eq_mul {byteSize : ℕ} {snd_loops : ℤ}
    (hlt : byteSize * snd_loops.toNat < 2 ^ 64) (h0 : 0 ≤ snd_loops) :
    sum_snd_bytes byteSize snd_loops = byteSize * snd_loops.toNat := by
  rcases Nat.eq_zero_or_pos byteSize with hz | hpos
  · subst hz
    simp [sum_snd_bytes]
  · have hN : snd_loops.toNat < 2 ^ 64 :=
      lt_of_le_of_lt (Nat.le_mul_of_pos_left _ hpos) hlt
    have hconv : toSizeT snd_loops = snd_loops.toNat := by
      unfold toSizeT
      omega
    rw [sum_snd_bytes, hconv, Nat.mod_eq_of_lt hlt]

/-- The counter after `n` callbacks for the same message, starting at 0. -/
theorem received_replicate (ser : CompressedImage → List Byte) (msg : CompressedImage)
    (n : ℕ) :
    received ser 0 (List.replicate n msg) = (n * ByteSizeLong ser msg) % 2 ^ 64 := by
  have h := received_mod ser (List.replicate n msg) 0
  rw [Nat.mod_eq_of_lt (received_lt ser _ 0 (by norm_num)), Nat.zero_add,
    List.map_replicate, List.sum_replicate, smul_eq_mul] at h
  exact h

/-- First example of C9: when the callbacks counted after the reset are those
of the `snd_loops` messages of the measured loop, nothing is reported lost. -/
theorem lost_of_loop_received (ser : CompressedImage → List Byte) (snd_loops : ℤ)
    (h0 : 0 ≤ snd_loops) :
    lost (sum_snd_bytes (ByteSizeLong ser generatedMessage) snd_loops)
      (received ser 0 (List.replicate snd_loops.toNat generatedMessage)) = 0 := by
  have hconv : toSizeT snd_loops = snd_loops.toNat % 2 ^ 64 := by
    unfold toSizeT
    omega
  have heq : sum_snd_bytes (ByteSizeLong ser generatedMessage) snd_loops =
      received ser 0 (List.replicate snd_loops.toNat generatedMessage) := by
    rw [received_replicate, sum_snd_bytes, hconv, Nat.mul_mod_mod, Nat.mul_comm]
  rw [heq]
  unfold lost
  simp

/-- Second example of C9: when the callback of the first send runs after the
reset as well, one message more than was sent is counted and the `Lost` line
shows `2 ^ 64` minus the size of one message. -/
theorem lost_of_first_send_counted (ser : CompressedImage → List Byte) (snd_loops : ℤ)
    (h0 : 0 ≤ snd_loops) (hpos : 0 < ByteSizeLong ser generatedMessage)
    (hfit : (snd_loops.toNat + 1) * ByteSizeLong ser generatedMessage < 2 ^ 64) :
    lost (sum_snd_bytes (ByteSizeLong ser generatedMessage) snd_loops)
        (received ser 0 (List.replicate (snd_loops.toNat + 1) generatedMessage)) =
      2 ^ 64 - ByteSizeLong ser generatedMessage := by
  have hmul : ByteSizeLong ser generatedMessage * snd_loops.toNat < 2 ^ 64 := by
    have : ByteSizeLong ser generatedMessage * snd_loops.toNat ≤
        (snd_loops.toNat + 1) * ByteSizeLong ser generatedMessage := by
      rw [Nat.mul_comm]
      exact Nat.mul_le_mul_right _ (Nat.le_succ _)
    omega
  rw [sum_snd_bytes_eq_mul hmul h0, received_replicate, Nat.mod_eq_of_lt hfit]
  have hexp : (snd_loops.toNat + 1) * ByteSizeLong ser generatedMessage =
      ByteSizeLong ser generatedMessage * snd_loops.toNat +
        ByteSizeLong ser generatedMessage := by ring
  rw [hexp] at hfit ⊢
  generalize ByteSizeLong ser generatedMessage * snd_loops.toNat = a at hfit ⊢
  generalize ByteSizeLong ser generatedMessage = b at hfit hpos ⊢
  unfold lost
  omega

/-! ## The trace of a trial -/

theorem serializedBuffer_eq (ser : CompressedImage → List Byte) :
    serializedBuffer ser =
      if ByteSizeLong ser generatedMessage ≤ 2 ^ 31 - 1 ∧
          (ByteSizeLong ser generatedMessage : ℤ) ≤ toInt32 (ByteSizeLong ser generatedMessage)
      then ser generatedMessage
      else List.replicate (ByteSizeLong ser generatedMessage) 0 := by
  unfold serializedBuffer SerializePartialToArray
  split_ifs
  · rw [List.drop_of_length_le (by simp), List.append_nil]
  · rfl

theorem serializedBuffer_length (ser : CompressedImage → List Byte) :
    (serializedBuffer ser).length = ByteSizeLong ser generatedMessage := by
  rw [serializedBuffer_eq]
  split_ifs
  · rfl
  · simp

theorem serializePartialToArray_serializedBuffer (ser : CompressedImage → List Byte) :
    SerializePartialToArray ser generatedMessage (serializedBuffer ser)
      (toInt32 (serializedBuffer ser).length) = serializedBuffer ser := by
  rw [serializedBuffer_length]
  unfold SerializePartialToArray
  split_ifs with h
  · rw [List.drop_of_length_le (by rw [serializedBuffer_length]), List.append_nil,
      serializedBuffer_eq, if_pos h]
  · rfl

theorem sendMessage_ready (ser : CompressedImage → List Byte) (use_payload : Bool)
    (d : Driver) (h : Ready ser d) :
    Ready ser (sendMessage ser use_payload d) ∧
      (sendMessage ser use_payload d).trace = d.trace ++ [sendEvent ser use_payload] := by
  obtain ⟨hm, hb⟩ := h
  cases use_payload with
  | true =>
    refine ⟨⟨hm, hb⟩, ?_⟩
    simp [sendMessage, emit, sendEvent, hm]
  | false =>
    have hbuf : SerializePartialToArray ser d.pb_message d.msg_buffer
        (toInt32 d.msg_buffer.length) = serializedBuffer ser := by
      rcases hb with hb | hb
      · rw [hm, hb, List.length_replicate]; rfl
      · rw [hm, hb]; exact serializePartialToArray_serializedBuffer ser
    refine ⟨⟨hm, Or.inr hbuf⟩, ?_⟩
    simp only [sendMessage, emit, sendEvent, hbuf, serializedBuffer_length]
    simp

theorem forLoop_sendMessage (ser : CompressedImage → List Byte) (use_payload : Bool)
    (n : ℕ) : ∀ d : Driver, Ready ser d →
      Ready ser (forLoop (sendMessage ser use_payload) n d) ∧
        (forLoop (sendMessage ser use_payload) n d).trace =
          d.trace ++ List.replicate n (sendEvent ser use_payload) := by
  induction n with
  | zero => intro d h; exact ⟨h, by simp [forLoop]⟩
  | succ k ih =>
    intro d h
    obtain ⟨h1, t1⟩ := sendMessage_ready ser use_payload d h
    obtain ⟨h2, t2⟩ := ih _ h1
    refine ⟨h2, ?_⟩
    show (forLoop (sendMessage ser use_payload) k (sendMessage ser use_payload d)).trace = _
    rw [t2, t1, List.replicate_succ, List.append_assoc]
    rfl

/-- The whole trace of a trial, in program order: set-up, the first send, the
reset and the start time, the sends of the loop, the finish time, the load of
the counter and the report; and the message at the end is the generated one. -/
theorem throughput_test_spec (ser : CompressedImage → List Byte) (snd_loops : ℤ)
    (zero_copy use_payload : Bool) (elapsed : ℚ) (sum_rcv_bytes : ℕ) :
    (throughput_test ser snd_loops zero_copy use_payload elapsed sum_rcv_bytes).pb_message =
        generatedMessage ∧
    (throughput_test ser snd_loops zero_copy use_payload elapsed sum_rcv_bytes).trace =
      (setupEvents ser zero_copy use_payload ++ [sendEvent ser use_payload]) ++
        [.counterStore 0, .clockNow] ++
        List.replicate snd_loops.toNat (sendEvent ser use_payload) ++
        [.clockNow, .counterLoad] ++
        reportLines ser snd_loops elapsed sum_rcv_bytes := by
  have hgen : ∀ d : Driver, Ready ser (generateMessage ser d) ∧
      (generateMessage ser d).trace =
        d.trace ++ [.print (.messageSize (ByteSizeLong ser generatedMessage / 1024))] :=
    fun d => ⟨⟨rfl, Or.inl rfl⟩, rfl⟩
  have hemit : ∀ (e : Event) (d : Driver), Ready ser d → Ready ser (emit e d) :=
    fun e d h => ⟨h.message, h.buffer⟩
  have hsetup : ∀ d : Driver, d.trace = [] →
      (generateMessage ser (createSubscriber (createPublisher zero_copy use_payload d))).trace =
        setupEvents ser zero_copy use_payload := by
    intro d hd
    rw [(hgen _).2]
    cases use_payload <;>
      simp [createSubscriber, createPublisher, emit, setupEvents, hd]
  unfold throughput_test
  simp only []
  have hr1 := (hgen (createSubscriber (createPublisher zero_copy use_payload
    ⟨⟨"", []⟩, [], []⟩))).1
  have ht1 := hsetup ⟨⟨"", []⟩, [], []⟩ rfl
  generalize generateMessage ser (createSubscriber (createPublisher zero_copy use_payload
    ⟨⟨"", []⟩, [], []⟩)) = d1 at hr1 ht1 ⊢
  obtain ⟨hr2, ht2⟩ := sendMessage_ready ser use_payload d1 hr1
  generalize sendMessage ser use_payload d1 = d2 at hr2 ht2 ⊢
  have hr3 : Ready ser (emit .clockNow (emit (.counterStore 0) d2)) :=
    hemit _ _ (hemit _ _ hr2)
  have ht3 : (emit .clockNow (emit (.counterStore 0) d2)).trace =
      d2.trace ++ [.counterStore 0, .clockNow] := by simp [emit]
  generalize emit .clockNow (emit (.counterStore 0) d2) = d3 at hr3 ht3 ⊢
  obtain ⟨hr4, ht4⟩ := forLoop_sendMessage ser use_payload snd_loops.toNat d3 hr3
  generalize forLoop (sendMessage ser use_payload) snd_loops.toNat d3 = d4 at hr4 ht4 ⊢
  refine ⟨hr4.message, ?_⟩
  simp only [report, emit, hr4.message, ht4, ht3, ht2, ht1, reportLines, List.append_assoc,
    List.cons_append, List.nil_append]

theorem sendEvent_isSend (ser : CompressedImage → List Byte) (use_payload : Bool) :
    (sendEvent ser use_payload).isSend = true := by
  cases use_payload <;> rfl

theorem sendEvent_isCounterWrite (ser : CompressedImage → List Byte) (use_payload : Bool) :
    (sendEvent ser use_payload).isCounterWrite = false := by
  cases use_payload <;> rfl

theorem sendEvent_isCounterRead (ser : CompressedImage → List Byte) (use_payload : Bool) :
    (sendEvent ser use_payload).isCounterRead = false := by
  cases use_payload <;> rfl

theorem sendEvent_ne_clockNow (ser : CompressedImage → List Byte) (use_payload : Bool) :
    sendEvent ser use_payload ≠ .clockNow := by
  cases use_payload <;> simp [sendEvent]

theorem filter_isSend_setupEvents (ser : CompressedImage → List Byte)
    (zero_copy use_payload : Bool) :
    (setupEvents ser zero_copy use_payload).filter Event.isSend = [] := rfl

theorem filter_isSend_reportLines (ser : CompressedImage → List Byte) (snd_loops : ℤ)
    (elapsed : ℚ) (sum_rcv_bytes : ℕ) :
    (reportLines ser snd_loops elapsed sum_rcv_bytes).filter Event.isSend = [] := rfl

theorem filter_isCounterWrite_setupEvents (ser : CompressedImage → List Byte)
    (zero_copy use_payload : Bool) :
    (setupEvents ser zero_copy use_payload).filter Event.isCounterWrite = [] := rfl

theorem filter_isCounterWrite_reportLines (ser : CompressedImage → List Byte) (snd_loops : ℤ)
    (elapsed : ℚ) (sum_rcv_bytes : ℕ) :
    (reportLines ser snd_loops elapsed sum_rcv_bytes).filter Event.isCounterWrite = [] := rfl

theorem filter_isCounterRead_setupEvents (ser : CompressedImage → List Byte)
    (zero_copy use_payload : Bool) :
    (setupEvents ser zero_copy use_payload).filter Event.isCounterRead = [] := rfl

theorem filter_isCounterRead_reportLines (ser : CompressedImage → List Byte) (snd_loops : ℤ)
    (elapsed : ℚ) (sum_rcv_bytes : ℕ) :
    (reportLines ser snd_loops elapsed sum_rcv_bytes).filter Event.isCounterRead = [] := rfl

/-- Filtering the trace of a trial, part by part. -/
theorem filter_trace (p : Event → Bool) (ser : CompressedImage → List Byte) (snd_loops : ℤ)
    (zero_copy use_payload : Bool) (elapsed : ℚ) (sum_rcv_bytes : ℕ) :
    (throughput_test ser snd_loops zero_copy use_payload elapsed sum_rcv_bytes).trace.filter p =
      (setupEvents ser zero_copy use_payload).filter p ++
        [sendEvent ser use_payload].filter p ++
        [Event.counterStore 0, Event.clockNow].filter p ++
        (List.replicate snd_loops.toNat (sendEvent ser use_payload)).filter p ++
        [Event.clockNow, Event.counterLoad].filter p ++
        (reportLines ser snd_loops elapsed sum_rcv_bytes).filter p := by
  rw [(throughput_test_spec ser snd_loops zero_copy use_payload elapsed sum_rcv_bytes).2]
  simp only [List.filter_append]

theorem filterMap_replicate_of_none {α : Type} (f : Event → Option α) (e : Event)
    (h : f e = none) (n : ℕ) : (List.replicate n e).filterMap f = [] := by
  induction n with
  | zero => rfl
  | succ k ih => rw [List.replicate_succ, List.filterMap_cons_none h, ih]

/-- Reading a kind of line off the trace of a trial: a `Send` prints nothing,
so the lines are those of the set-up and of the report. -/
theorem filterMap_trace {α : Type} (f : Event → Option α)
    (ser : CompressedImage → List Byte) (snd_loops : ℤ)
    (zero_copy use_payload : Bool) (elapsed : ℚ) (sum_rcv_bytes : ℕ)
    (hsend : f (sendEvent ser use_payload) = none) :
    (throughput_test ser snd_loops zero_copy use_payload elapsed
        sum_rcv_bytes).trace.filterMap f =
      (setupEvents ser zero_copy use_payload).filterMap f ++
        [Event.counterStore 0, Event.clockNow].filterMap f ++
        [Event.clockNow, Event.counterLoad].filterMap f ++
        (reportLines ser snd_loops elapsed sum_rcv_bytes).filterMap f := by
  rw [(throughput_test_spec ser snd_loops zero_copy use_payload elapsed sum_rcv_bytes).2]
  simp only [List.filterMap_append, filterMap_replicate_of_none f _ hsend,
    List.filterMap_cons_none hsend, List.filterMap_nil, List.append_nil]

/-- The one `Throughput` line of a trial. -/
theorem throughputLine_of_trial (ser : CompressedImage → List Byte) (snd_loops : ℤ)
    (zero_copy use_payload : Bool) (elapsed : ℚ) (sum_rcv_bytes : ℕ) :
    (throughput_test ser snd_loops zero_copy use_payload elapsed
        sum_rcv_bytes).trace.filterMap Event.throughputLine =
      [throughput (sum_snd_bytes (ByteSizeLong ser generatedMessage) snd_loops) elapsed] := by
  rw [filterMap_trace _ _ _ _ _ _ _ (by cases use_payload <;> rfl)]
  rfl

/-- The six figures of `reportLines` are what the trial prints. -/
theorem reportLines_subset_trace (ser : CompressedImage → List Byte) (snd_loops : ℤ)
    (zero_copy use_payload : Bool) (elapsed : ℚ) (sum_rcv_bytes : ℕ) :
    ∀ e ∈ reportLines ser snd_loops elapsed sum_rcv_bytes,
      e ∈ (throughput_test ser snd_loops zero_copy use_payload elapsed sum_rcv_bytes).trace := by
  intro e he
  rw [(throughput_test_spec ser snd_loops zero_copy use_payload elapsed sum_rcv_bytes).2]
  exact List.mem_append_right _ he

/-- The number of `Send` calls in the trace of a trial. -/
theorem sends_of_trial (ser : CompressedImage → List Byte) (snd_loops : ℤ)
    (zero_copy use_payload : Bool) (elapsed : ℚ) (sum_rcv_bytes : ℕ) :
    ((throughput_test ser snd_loops zero_copy use_payload elapsed
      sum_rcv_bytes).trace.filter Event.isSend).length = snd_loops.toNat + 1 := by
  rw [filter_trace, filter_isSend_setupEvents, filter_isSend_reportLines,
    List.filter_replicate_of_pos (sendEvent_isSend ser use_payload),
    List.filter_cons_of_pos (sendEvent_isSend ser use_payload)]
  have h1 : [Event.counterStore 0, Event.clockNow].filter Event.isSend = [] := rfl
  have h2 : [Event.clockNow, Event.counterLoad].filter Event.isSend = [] := rfl
  rw [h1, h2]
  simp

/-- C4: the trace of a trial has one write of the counter, of the value 0, and
one read; the write is directly followed by the start time, the sends of the
loop lie between the start time and the finish time, and the read directly
follows the finish time. -/
theorem C4_counter_reset_once_read_once (ser : CompressedImage → List Byte) (snd_loops : ℤ)
    (zero_copy use_payload : Bool) (elapsed : ℚ) (sum_rcv_bytes : ℕ) :
    (throughput_test ser snd_loops zero_copy use_payload elapsed
        sum_rcv_bytes).trace.filter Event.isCounterWrite = [.counterStore 0] ∧
    (throughput_test ser snd_loops zero_copy use_payload elapsed
        sum_rcv_bytes).trace.filter Event.isCounterRead = [.counterLoad] ∧
    ∃ pre loop post : List Event,
      (throughput_test ser snd_loops zero_copy use_payload elapsed sum_rcv_bytes).trace =
          pre ++ [.counterStore 0, .clockNow] ++ loop ++ [.clockNow, .counterLoad] ++ post ∧
        (∀ e ∈ pre, e ≠ .clockNow) ∧
        loop.length = snd_loops.toNat ∧ (∀ e ∈ loop, e.isSend = true) ∧
        (∀ e ∈ post, e.isSend = false ∧ e ≠ .clockNow) := by
  have hspec :=
    (throughput_test_spec ser snd_loops zero_copy use_payload elapsed sum_rcv_bytes).2
  refine ⟨?_, ?_, setupEvents ser zero_copy use_payload ++ [sendEvent ser use_payload],
    List.replicate snd_loops.toNat (sendEvent ser use_payload),
    reportLines ser snd_loops elapsed sum_rcv_bytes, hspec, ?_, ?_, ?_, ?_⟩
  · rw [filter_trace, filter_isCounterWrite_setupEvents, filter_isCounterWrite_reportLines,
      List.filter_replicate_of_neg (by simp [sendEvent_isCounterWrite]),
      List.filter_cons_of_neg (by simp [sendEvent_isCounterWrite])]
    rfl
  · rw [filter_trace, filter_isCounterRead_setupEvents, filter_isCounterRead_reportLines,
      List.filter_replicate_of_neg (by simp [sendEvent_isCounterRead]),
      List.filter_cons_of_neg (by simp [sendEvent_isCounterRead])]
    rfl
  · intro e he
    rcases List.mem_append.mp he with h | h
    · intro hc; subst hc; simp [setupEvents] at h
    · rw [List.mem_singleton] at h; rw [h]; exact sendEvent_ne_clockNow ser use_payload
  · simp
  · intro e he
    rw [List.eq_of_mem_replicate he]
    exact sendEvent_isSend ser use_payload
  · intro e he
    simp only [reportLines, List.mem_cons, List.mem_singleton, List.not_mem_nil, or_false] at he
    rcases he with h | h | h | h | h | h <;> subst h <;> exact ⟨rfl, by simp⟩

/-- C6 (counterexample): the first trial of `main`, with `snd_loops = 2560`,
issues 2561 `Send` calls, not 2560. -/
theorem C6_one_more_send :
    ((throughput_test wireEncode g_snd_loops false false 1 0).trace.filter
        Event.isSend).length = 2561 ∧ ((2561 : ℕ) : ℤ) ≠ g_snd_loops := by
  refine ⟨?_, by decide⟩
  rw [sends_of_trial]
  rfl

/-- C6 (amended): a trial with `snd_loops = N ≥ 0` issues `N + 1` `Send` calls:
one before the counter is reset, and exactly `N` in the measured loop, between
the start time and the finish time. -/
theorem C6_sends_loop_plus_one (ser : CompressedImage → List Byte) (N : ℤ) (hN : 0 ≤ N)
    (zero_copy use_payload : Bool) (elapsed : ℚ) (sum_rcv_bytes : ℕ) :
    (((throughput_test ser N zero_copy use_payload elapsed
        sum_rcv_bytes).trace.filter Event.isSend).length : ℤ) = N + 1 ∧
    ∃ pre loop post : List Event,
      (throughput_test ser N zero_copy use_payload elapsed sum_rcv_bytes).trace =
          pre ++ [.counterStore 0, .clockNow] ++ loop ++ [.clockNow, .counterLoad] ++ post ∧
        (pre.filter Event.isSend).length = 1 ∧
        (loop.length : ℤ) = N ∧ (∀ e ∈ loop, e.isSend = true) ∧
        (post.filter Event.isSend).length = 0 := by
  have hspec := (throughput_test_spec ser N zero_copy use_payload elapsed sum_rcv_bytes).2
  refine ⟨?_, setupEvents ser zero_copy use_payload ++ [sendEvent ser use_payload],
    List.replicate N.toNat (sendEvent ser use_payload),
    reportLines ser N elapsed sum_rcv_bytes, hspec, ?_, ?_, ?_, ?_⟩
  · rw [sends_of_trial]
    push_cast
    rw [Int.toNat_of_nonneg hN]
  · rw [List.filter_append, filter_isSend_setupEvents,
      List.filter_cons_of_pos (sendEvent_isSend ser use_payload)]
    rfl
  · rw [List.length_replicate, Int.toNat_of_nonneg hN]
  · intro e he
    rw [List.eq_of_mem_replicate he]
    exact sendEvent_isSend ser use_payload
  · rw [filter_isSend_reportLines]
    rfl

theorem C6_sends_loop_plus_one_witness :
    (((throughput_test wireEncode 3 true false 1 0).trace.filter Event.isSend).length : ℤ) =
      3 + 1 :=
  (C6_sends_loop_plus_one wireEncode 3 (by decide) true false 1 0).1

/-- C7: the message of a trial is the generated one, format `"jpg"` and
`4 * 1024 * 1024` zero bytes, from its construction to the end of the trial,
and every `Send` of the trial carries it: the message itself in payload mode,
and in buffer mode a buffer of `ByteSizeLong()` bytes that holds its
serialization. The size of the message has to fit an `int`, as the size of the
generated message does. -/
theorem C7_every_send_carries_the_message (ser : CompressedImage → List Byte)
    (hsize : ByteSizeLong ser generatedMessage ≤ 2 ^ 31 - 1) (snd_loops : ℤ)
    (zero_copy use_payload : Bool) (elapsed : ℚ) (sum_rcv_bytes : ℕ) :
    generatedMessage = { format := "jpg", data := List.replicate (4 * 1024 * 1024) 0 } ∧
    (throughput_test ser snd_loops zero_copy use_payload elapsed sum_rcv_bytes).pb_message =
      generatedMessage ∧
    (ser generatedMessage).length = ByteSizeLong ser generatedMessage ∧
    ∀ e ∈ (throughput_test ser snd_loops zero_copy use_payload elapsed sum_rcv_bytes).trace,
      e.isSend = true →
        e = if use_payload then Event.sendProto generatedMessage
            else Event.sendRaw (ser generatedMessage) (ByteSizeLong ser generatedMessage) := by
  obtain ⟨hmsg, hspec⟩ :=
    throughput_test_spec ser snd_loops zero_copy use_payload elapsed sum_rcv_bytes
  have hint : toInt32 (ByteSizeLong ser generatedMessage) =
      (ByteSizeLong ser generatedMessage : ℤ) := by
    unfold toInt32
    have h1 : ByteSizeLong ser generatedMessage % 2 ^ 32 = ByteSizeLong ser generatedMessage :=
      Nat.mod_eq_of_lt (by omega)
    rw [h1, if_pos (by omega)]
  have hbuf : serializedBuffer ser = ser generatedMessage := by
    rw [serializedBuffer_eq, if_pos ⟨hsize, by rw [hint]⟩]
  have hev : sendEvent ser use_payload =
      if use_payload then Event.sendProto generatedMessage
      else Event.sendRaw (ser generatedMessage) (ByteSizeLong ser generatedMessage) := by
    unfold sendEvent
    rw [hbuf]
  refine ⟨rfl, hmsg, rfl, ?_⟩
  intro e he hsend
  rw [hspec] at he
  simp only [List.mem_append, List.mem_replicate, List.mem_cons, List.mem_singleton,
    List.not_mem_nil, or_false, setupEvents, reportLines] at he
  rcases he with ((((h | h) | h) | h) | h) | h
  · rcases h with h | h | h | h | h | h | h <;> subst h <;> simp [Event.isSend] at hsend
  · rw [h, hev]
  · rcases h with h | h <;> subst h <;> simp [Event.isSend] at hsend
  · rw [h.2, hev]
  · rcases h with h | h <;> subst h <;> simp [Event.isSend] at hsend
  · rcases h with h | h | h | h | h | h <;> subst h <;> simp [Event.isSend] at hsend

theorem C7_every_send_carries_the_message_witness :
    ByteSizeLong wireEncode generatedMessage ≤ 2 ^ 31 - 1 ∧
      (throughput_test wireEncode g_snd_loops false false 1 0).pb_message = generatedMessage :=
  ⟨by rw [byteSizeLong_wireEncode_generatedMessage]; norm_num,
    (C7_every_send_carries_the_message wireEncode
      (by rw [byteSizeLong_wireEncode_generatedMessage]; norm_num)
      g_snd_loops false false 1 0).2.1⟩

/-- C5: `main` runs four trials, each with `snd_loops = g_snd_loops = 2560`;
their `(zero_copy, use_payload)` arguments are, in order, `(false, false)`,
`(true, false)`, `(false, true)`, `(true, true)`, so each combination occurs
once; and the banner printed before each trial says `BUFFER` exactly when
`use_payload` is false and `ZERO-COPY` exactly when `zero_copy` is true. -/
theorem C5_main_runs_four_trials :
    g_snd_loops = 2560 ∧
    trials.map (fun t => (t.snd_loops, t.zero_copy, t.use_payload)) =
      [(2560, false, false), (2560, true, false), (2560, false, true), (2560, true, true)] ∧
    (∀ z u : Bool,
      (trials.filter fun t => t.zero_copy == z && t.use_payload == u).length = 1) ∧
    (∀ t ∈ trials, t.banner = bannerOf t.zero_copy t.use_payload) ∧
    (∀ t ∈ trials,
      ("MODE         : BUFFER        " ∈ t.banner ↔ t.use_payload = false) ∧
      ("LAYER        : SHM ZERO-COPY " ∈ t.banner ↔ t.zero_copy = true)) := by
  decide

/-! ## The report figures -/

theorem truncate_intCast (z : ℤ) : truncate (z : ℚ) = z := by
  unfold truncate
  split_ifs <;> simp

theorem toInt_intCast (z : ℤ) (hlo : -(2 ^ 31) ≤ z) (hhi : z < 2 ^ 31) :
    toInt (z : ℚ) = some z := by
  unfold toInt
  rw [truncate_intCast, if_pos ⟨hlo, hhi⟩]

theorem roundDouble_natCast {n : ℕ} (hn : n ≤ 2 ^ 53) : roundDouble (n : ℚ) = some (n : ℚ) := by
  have := roundDouble_dyadic (m := n) (d := 0) hn (by norm_num)
  simpa using this

/-- The unit in the last place of a normal number in the binade
`[2 ^ e, 2 ^ (e + 1))`. -/
theorem ulpExp_of_binade {y : ℚ} {e : ℤ} (hy : 0 < y) (h1 : (2 : ℚ) ^ e ≤ y)
    (h2 : y < (2 : ℚ) ^ (e + 1)) (he : -1022 ≤ e) : ulpExp y = e - 52 := by
  have hlo : e ≤ Int.log 2 y := by
    have := (Int.zpow_le_iff_le_log (b := 2) (by norm_num) hy (x := e)).mp
    exact this (by exact_mod_cast h1)
  have hhi : Int.log 2 y < e + 1 := by
    have := (Int.lt_zpow_iff_log_lt (b := 2) (by norm_num) hy (x := e + 1)).mp
    exact this (by exact_mod_cast h2)
  unfold ulpExp
  rw [abs_of_pos hy, max_eq_left (by omega)]
  omega

theorem roundNearestEven_of_half_lt {q : ℚ} {f : ℤ} (h1 : (f : ℚ) + 1 / 2 < q)
    (h2 : q < (f : ℚ) + 1) : roundNearestEven q = f + 1 := by
  have hf : ⌊q⌋ = f := Int.floor_eq_iff.mpr ⟨by linarith, h2⟩
  unfold roundNearestEven
  rw [hf, if_neg (by linarith), if_pos (by linarith)]

/-- The `Throughput` figure for a total below `2 ^ 53`: the conversion to
`double` and the division by `1024.0 * 1024.0` are exact, and what is left is
the rounded division by the elapsed time and the conversion to `int`. -/
theorem throughput_eq_fdiv_bind {s : ℕ} {N : ℤ} (t : ℚ) (hN : 0 ≤ N)
    (hsum : s * N.toNat < 2 ^ 53) :
    throughput (sum_snd_bytes s N) t = (fdiv ((s : ℚ) * N / (1024 * 1024)) t).bind toInt := by
  have hsnd : sum_snd_bytes s N = s * N.toNat :=
    sum_snd_bytes_eq_mul (lt_trans hsum (by norm_num)) hN
  have hcast : ((s * N.toNat : ℕ) : ℚ) = (s : ℚ) * N := by
    have : ((N.toNat : ℤ) : ℚ) = (N : ℚ) := by rw [Int.toNat_of_nonneg hN]
    push_cast
    rw [← this]
    norm_cast
  have h1 : ofSizeT (s * N.toNat) = some ((s : ℚ) * N) := by
    have := roundDouble_natCast hsum.le
    rw [hcast] at this
    unfold ofSizeT
    rw [hcast]
    exact this
  have h2 : fdiv ((s : ℚ) * N) (1024 * 1024) = some ((s : ℚ) * N / (1024 * 1024)) := by
    have := roundDouble_dyadic (m := s * N.toNat) (d := 20) hsum.le (by norm_num)
    rw [hcast, show ((2 : ℚ) ^ 20) = 1024 * 1024 by norm_num] at this
    unfold fdiv
    rw [if_neg (by norm_num)]
    exact this
  rw [hsnd]
  unfold throughput
  rw [h1, Option.some_bind, h2, Option.some_bind]

/-- The division does round up to the next integer in a trial of `main`:
when the 2560 sends of the 4194314-byte message take the double
`5004011516431929 / 2 ^ 42` seconds (about 1137.78 s), the exact figure is just
below 9 and truncates to 8, while the division rounds to `9.0` and the
`Throughput` line shows 9. -/
theorem throughput_rounds_up :
    (throughput_test wireEncode 2560 false false (5004011516431929 / 2 ^ 42) 0).trace.filterMap
        Event.throughputLine = [some 9] ∧
      truncate (exactRate (ByteSizeLong wireEncode generatedMessage) 2560
        (5004011516431929 / 2 ^ 42)) = 8 ∧
      roundDouble (5004011516431929 / 2 ^ 42) = some (5004011516431929 / 2 ^ 42) := by
  have hsize := byteSizeLong_wireEncode_generatedMessage
  have hy : ((4194314 : ℕ) : ℚ) * ((2560 : ℤ) : ℚ) / (1024 * 1024) /
      (5004011516431929 / 2 ^ 42) = 45036103647887360 / 5004011516431929 := by norm_num
  have hu : ulpExp ((45036103647887360 : ℚ) / 5004011516431929) = -49 := by
    have := ulpExp_of_binade (y := (45036103647887360 : ℚ) / 5004011516431929) (e := 3)
      (by norm_num) (by norm_num) (by norm_num) (by norm_num)
    rw [this]
    norm_num
  have h49 : ((2 : ℚ) ^ (-49 : ℤ)) = 1 / 2 ^ 49 := by rw [zpow_neg]; norm_num
  have hn : roundNearestEven ((45036103647887360 : ℚ) / 5004011516431929 / 2 ^ (-49 : ℤ)) =
      5066549580791807 + 1 := by
    apply roundNearestEven_of_half_lt
    · rw [h49]; norm_num
    · rw [h49]; norm_num
  have hr : roundSignificand ((45036103647887360 : ℚ) / 5004011516431929) = 9 := by
    unfold roundSignificand
    rw [hu, hn, h49]
    norm_num
  have h3 : fdiv (((4194314 : ℕ) : ℚ) * ((2560 : ℤ) : ℚ) / (1024 * 1024))
      (5004011516431929 / 2 ^ 42) = some 9 := by
    unfold fdiv roundDouble
    rw [if_neg (by norm_num), hy, hr, if_pos (by norm_num)]
  have h4 : toInt 9 = some 9 := by
    have := toInt_intCast 9 (by norm_num) (by norm_num)
    simpa using this
  refine ⟨?_, ?_, ?_⟩
  · rw [throughputLine_of_trial, hsize,
      throughput_eq_fdiv_bind _ (by decide) (by decide), h3, Option.some_bind, h4]
  · rw [hsize]
    unfold exactRate truncate
    rw [if_pos (by norm_num), Int.floor_eq_iff]
    constructor <;> norm_num
  · have := roundDouble_dyadic (m := 5004011516431929) (d := 42) (by norm_num) (by norm_num)
    exact_mod_cast this

/-- C10 (the code at the failing input): a trial with `snd_loops = 1` that
takes one second reports a latency of `25 / 64 = 0.390625` ms and a frequency
of 2560 Hz, the figures of 2560 messages; one message in one second is
1000 ms and 1 Hz. -/
theorem C10_latency_frequency_ignore_snd_loops (ser : CompressedImage → List Byte)
    (zero_copy use_payload : Bool) (sum_rcv_bytes : ℕ) :
    Event.print (.latency (some (25 / 64))) ∈
        (throughput_test ser 1 zero_copy use_payload 1 sum_rcv_bytes).trace ∧
      Event.print (.frequency (some 2560)) ∈
        (throughput_test ser 1 zero_copy use_payload 1 sum_rcv_bytes).trace ∧
      (25 / 64 : ℚ) ≠ 1 * 1000 / ofInt 1 ∧ (2560 : ℤ) ≠ truncate (ofInt 1 / 1) := by
  have hl : latency 1 = some (25 / 64) := by
    have h1 : fmul 1 1000 = some 1000 := by
      have := roundDouble_natCast (n := 1000) (by norm_num)
      unfold fmul
      rw [show (1 : ℚ) * 1000 = ((1000 : ℕ) : ℚ) by norm_num, this]
      norm_num
    have h2 : fdiv 1000 (ofInt g_snd_loops) = some (25 / 64) := by
      have := roundDouble_dyadic (m := 25) (d := 6) (by norm_num) (by norm_num)
      unfold fdiv
      rw [if_neg (by norm_num [ofInt, g_snd_loops])]
      rw [show (1000 : ℚ) / ofInt g_snd_loops = ((25 : ℕ) : ℚ) / 2 ^ 6 by
        norm_num [ofInt, g_snd_loops]]
      rw [this]
      norm_num
    unfold latency
    rw [h1, Option.some_bind, h2]
  have hf : frequency 1 = some 2560 := by
    have h1 : fdiv (ofInt g_snd_loops) 1 = some 2560 := by
      have := roundDouble_natCast (n := 2560) (by norm_num)
      unfold fdiv
      rw [if_neg (by norm_num)]
      rw [show ofInt g_snd_loops / 1 = ((2560 : ℕ) : ℚ) by norm_num [ofInt, g_snd_loops]]
      rw [this]
      norm_num
    have h2 : toInt 2560 = some 2560 := by
      have := toInt_intCast 2560 (by norm_num) (by norm_num)
      simpa using this
    unfold frequency
    rw [h1, Option.some_bind, h2]
  have hspec := (throughput_test_spec ser 1 zero_copy use_payload 1 sum_rcv_bytes).2
  refine ⟨?_, ?_, by norm_num [ofInt], ?_⟩
  · rw [hspec, ← hl]
    simp [reportLines]
  · rw [hspec, ← hf]
    simp [reportLines]
  · have := truncate_intCast 1
    rw [show ofInt 1 / 1 = ((1 : ℤ) : ℚ) by norm_num [ofInt], this]
    norm_num

end ProtoThroughput
